import Mathlib

/-!
Shallow embedding of the `command` subcommand-dispatch library and the
collaborating parts of Go's `flag` package that its resolution logic relies
on.  Three variants of the code are embedded:

* namespace `Command`  — the global-state dispatcher of `command.go`
  (`On`, `Parse`, `Run`, `ParseAndRun`, `printUsageSorted`, `Usage`);
* namespace `ECmd3`    — the compgen-based recursive variant
  (`commander.On`, `Compgen`, `prepare`/`Launch`);
* namespace `ECmd4`    — the recursive `Commander` variant
  (`commander.Parse`, modelled as an event trace so that the *order* of the
  steps inside the matched branch is provable).

Go maps are modelled as association lists with first-occurrence lookup and
in-place replacement on update; handler objects are modelled by the flag
definitions their `Flags` method binds plus a numeric identity for their
`Run` method.  Output streams and `os.Exit` are modelled by the result
constructors (`usageExit` = top-level usage printed + exit 1, etc.).
-/

/-- Association-list model of a Go `map[string]*T`: lookup returns the value
of the first binding of the key, mirroring `m[k]`. -/
def mapLookup {α : Type} : List (String × α) → String → Option α
  | [], _ => none
  | p :: t, k => if p.1 = k then some p.2 else mapLookup t k

/-- Association-list model of Go's `m[k] = v`: replaces the binding of `k`
in place if present, otherwise adds one. -/
def mapUpdate {α : Type} : List (String × α) → String → α → List (String × α)
  | [], k, v => [(k, v)]
  | p :: t, k, v => if p.1 = k then (k, v) :: t else p :: mapUpdate t k v

namespace GoFlag

/-- One flag bound on a `flag.FlagSet`: its name and whether it is a boolean
flag (Go's `boolFlag` special case: it needs no argument).  Non-boolean
flags are modelled as string-valued; value coercion for other types is the
flag package's own concern. -/
structure FlagDef where
  name : String
  isBool : Bool
deriving DecidableEq, Repr

/-- Result of `FlagSet.Parse`: on success, the flags actually set (in the
order they were set, as name/value pairs — the input of `Visit`) and the
leftover positional arguments (`fs.Args()`); `err` covers every terminal
outcome of parsing (bad syntax, undefined flag including the `ErrHelp`
special case, missing value, bad boolean value) — under `flag.ExitOnError`
each of these exits the process. -/
inductive FParse where
  | ok (visited : List (String × String)) (leftover : List String)
  | err
deriving DecidableEq, Repr

/-- `m[name]` over the defined flags of the set. -/
def findFlag (defs : List FlagDef) (n : String) : Option FlagDef :=
  defs.find? (fun d => d.name = n)

/-- Split `name=value` at the first `=` (Go: "equals cannot be first"; the
caller has already ruled out a leading `=`). -/
def splitFirstEq : List Char → List Char × Option (List Char)
  | [] => ([], none)
  | c :: rest =>
    if c = '=' then ([], some rest)
    else
      let pr := splitFirstEq rest
      (c :: pr.1, pr.2)

/-- Go's `strconv.ParseBool`. -/
def parseBoolVal (v : String) : Option Bool :=
  if v = "1" ∨ v = "t" ∨ v = "T" ∨ v = "true" ∨ v = "TRUE" ∨ v = "True" then some true
  else if v = "0" ∨ v = "f" ∨ v = "F" ∨ v = "false" ∨ v = "FALSE" ∨ v = "False" then some false
  else none

/-- Classification of one token at the head of the remaining arguments, as
`parseOne` performs it before looking the flag up:
* `notFlag`    — shorter than two bytes or not starting with `-`: parsing
  stops and the token stays in the leftover arguments;
* `terminator` — the bare `--` token: parsing stops, `--` is consumed;
* `badSyntax`  — a `-` or `=` directly after the leading minuses;
* `flagTok`    — a flag token, split into its name and its optional
  `=value` part. -/
inductive TokClass where
  | notFlag
  | terminator
  | badSyntax
  | flagTok (nm : String) (val : Option String)
deriving DecidableEq, Repr

/-- The token analysis at the top of `parseOne`. -/
def classifyTok (s : String) : TokClass :=
  match s.data with
  | [] => TokClass.notFlag
  | [_] => TokClass.notFlag
  | c0 :: c1 :: ctail =>
    if c0 = '-' then
      if c1 = '-' ∧ ctail = [] then TokClass.terminator
      else
        match (if c1 = '-' then ctail else c1 :: ctail) with
        | [] => TokClass.badSyntax
        | n0 :: ntail =>
          if n0 = '-' ∨ n0 = '=' then TokClass.badSyntax
          else
            let pr := splitFirstEq (n0 :: ntail)
            TokClass.flagTok (String.mk pr.1) (pr.2.map String.mk)
    else TokClass.notFlag

/-- The loop of `flag.FlagSet.Parse` / `parseOne`: consume option tokens
from the front of `args` until a non-flag token, `--`, or the end; `acc`
accumulates the flags set so far (reversed).  A boolean flag without
`=value` is set to `"true"`; a non-boolean flag without `=value` takes the
next token as its value and fails if there is none. -/
def parseFlagsAux (defs : List FlagDef) : List String → List (String × String) → FParse
  | [], acc => FParse.ok acc.reverse []
  | s :: rest, acc =>
    match classifyTok s with
    | TokClass.notFlag => FParse.ok acc.reverse (s :: rest)
    | TokClass.terminator => FParse.ok acc.reverse rest
    | TokClass.badSyntax => FParse.err
    | TokClass.flagTok nm valOpt =>
      match findFlag defs nm with
      | none => FParse.err   -- undefined flag (or ErrHelp): terminal
      | some fd =>
        if fd.isBool then
          match valOpt with
          | some v =>
            match parseBoolVal v with
            | some _ => parseFlagsAux defs rest ((nm, v) :: acc)
            | none => FParse.err
          | none => parseFlagsAux defs rest ((nm, "true") :: acc)
        else
          match valOpt with
          | some v => parseFlagsAux defs rest ((nm, v) :: acc)
          | none =>
            match rest with
            | v :: rest2 => parseFlagsAux defs rest2 ((nm, v) :: acc)
            | [] => FParse.err   -- "flag needs an argument"

/-- `fs.Parse(args)`. -/
def parseFlags (defs : List FlagDef) (args : List String) : FParse :=
  parseFlagsAux defs args []

/-- The final value of the boolean flag `h` after parsing: the last `Set`
wins; absent means the default `false`. -/
def helpValue (visited : List (String × String)) : Bool :=
  match (visited.filter (fun p => p.1 = "h")).getLast? with
  | some pr => (parseBoolVal pr.2).getD false
  | none => false

end GoFlag

namespace Command

open GoFlag

/-- A handler (`Cmd` interface): the flags its `Flags` method binds on the
fresh flag set it is given, and an identity standing for its `Run` method. -/
structure Cmd where
  id : Nat
  flags : List FlagDef
deriving DecidableEq, Repr

/-- `cmdCont` of `command.go`. -/
structure cmdCont where
  name : String
  desc : String
  command : Cmd
  requiredFlags : List String
deriving DecidableEq, Repr

/-- `On`: registers a `Cmd` under `name` in the `cmds` map. -/
def On (cmds : List (String × cmdCont)) (name description : String) (command : Cmd)
    (requiredFlags : List String) : List (String × cmdCont) :=
  mapUpdate cmds name ⟨name, description, command, requiredFlags⟩

/-- The boolean `h` flag that `Parse` adds to every matched subcommand's
flag set (`flagHelp = fs.Bool("h", false, "")`). -/
def hFlagDef : FlagDef := ⟨"h", true⟩

/-- The flag definitions of the flag set `Parse` builds for a matched
command: the command's own flags, then the automatic `h`. -/
def matchedDefs (cont : cmdCont) : List FlagDef :=
  cont.command.flags ++ [hFlagDef]

/-- Outcome of `Parse` on the argument vector left over after the global
flag parse (`flag.Args()`):
* `ret`             — fewer than one registered subcommand: plain return;
* `usageExit`       — top-level `Usage` printed, `os.Exit(1)`;
* `flagError`       — the subcommand flag set failed to parse (exit);
* `requiredMissing` — `subcommandUsage` of the matched command printed,
                      `os.Exit(1)`;
* `matched`         — the matched container, `fs.Args()`, and `*flagHelp`. -/
inductive ParseResult where
  | ret
  | usageExit
  | flagError (name : String)
  | requiredMissing (contName : String)
  | matched (cont : cmdCont) (args : List String) (help : Bool)
deriving DecidableEq, Repr

/-- `Parse` of `command.go`, from the point where the global flag set has
been parsed: `argv` is `flag.Args()`. -/
def Parse (cmds : List (String × cmdCont)) (argv : List String) : ParseResult :=
  if cmds.length < 1 then ParseResult.ret
  else
    match argv with
    | [] => ParseResult.usageExit
    | nm :: rest =>
      match mapLookup cmds nm with
      | none => ParseResult.usageExit
      | some cont =>
        match parseFlags (matchedDefs cont) rest with
        | FParse.err => ParseResult.flagError nm
        | FParse.ok visited leftover =>
          if cont.requiredFlags.all (fun r => (visited.map Prod.fst).contains r) then
            ParseResult.matched cont leftover (helpValue visited)
          else ParseResult.requiredMissing cont.name

/-- Joint outcome of `Parse` followed by `Run` (the `ParseAndRun` entry
point); the exits inside `Parse` make `Run` unreachable on those paths.
`helpShown` is `Run`'s early return printing `subcommandUsage` (no exit);
`ran` records which handler's `Run` was invoked and with which args. -/
inductive Outcome where
  | silentRet
  | usageExit
  | flagErrorExit (name : String)
  | requiredMissingExit (contName : String)
  | helpShown (contName : String)
  | ran (id : Nat) (args : List String)
deriving DecidableEq, Repr

/-- `Run` applied to the state `Parse` left behind, fused with the terminal
outcomes of `Parse` itself (`ParseAndRun`). -/
def ParseAndRun (cmds : List (String × cmdCont)) (argv : List String) : Outcome :=
  match Parse cmds argv with
  | ParseResult.ret => Outcome.silentRet
  | ParseResult.usageExit => Outcome.usageExit
  | ParseResult.flagError n => Outcome.flagErrorExit n
  | ParseResult.requiredMissing n => Outcome.requiredMissingExit n
  | ParseResult.matched cont args help =>
    if help then Outcome.helpShown cont.name
    else Outcome.ran cont.command.id args

/-- `%-15s` left-justified padding. -/
def padTo (w : Nat) (s : String) : String :=
  s ++ String.mk (List.replicate (w - s.length) ' ')

/-- One line of `printUsageSorted`: `"  %-15s %s\n"` applied to key and
description. -/
def usageLine (key desc : String) : String :=
  "  " ++ padTo 15 key ++ " " ++ desc

/-- `printUsageSorted`: collect the keys of the mapping, sort them, and
print each key with its container's description. -/
def printUsageSorted (cmds : List (String × cmdCont)) : List String :=
  (List.insertionSort (fun a b : String => a ≤ b) (cmds.map Prod.fst)).map
    (fun key => usageLine key (((mapLookup cmds key).map cmdCont.desc).getD ""))

/-- `Usage` of `command.go`, as the list of lines written to `OutFileDesc`.
`nGlobal` is `numOfGlobalFlags()`; `defaultsLines` stands for the output of
`flag.PrintDefaults()` (a collaborator). -/
def Usage (prog : String) (cmds : List (String × cmdCont)) (nGlobal : Nat)
    (defaultsLines : List String) : List String :=
  if cmds.length = 0 then
    ("Usage of " ++ prog ++ ":") :: defaultsLines
  else
    ("Usage: " ++ prog ++ " <command>") :: "" :: "where <command> is one of:" ::
      (printUsageSorted cmds
        ++ (if nGlobal > 0 then "" :: "available flags:" :: defaultsLines else [])
        ++ ["", prog ++ " <command> -h for subcommand help"])

end Command

namespace ECmd3

/-- `cmdCont` of the compgen-based variant: name, syntax hint, description
and the handler (modelled by its identity; the field is called `syntax` in
the source). -/
structure cmdCont where
  name : String
  syntaxHint : String
  description : String
  commandId : Nat
deriving DecidableEq, Repr

/-- `commander`: its qualified display name and its sub-command map. -/
structure commander where
  name : String
  cmds : List (String × cmdCont)
deriving DecidableEq, Repr

/-- `commander.On` of the compgen-based variant. -/
def On (c : commander) (name syntaxHint description : String) (commandId : Nat) : commander :=
  ⟨c.name, mapUpdate c.cmds name ⟨name, syntaxHint, description, commandId⟩⟩

/-- `getContainer`: look the first token up in the sub-command map; `nil`
when the vector is empty. -/
def getContainer (c : commander) (args : List String) : Option cmdCont :=
  match args with
  | a :: _ => mapLookup c.cmds a
  | [] => none

/-- What `commander.Compgen` returns, up to the collaborator boundary:
* `candidates vals pfx` — position 0: the registered names `vals` are
  handed to `compgen.ValueGen` and filtered by the typed `pfx`
  (the generator's job), error `nil`;
* `empty`              — `(nil, nil)`: no candidates and no error;
* `delegated`          — the matched container's surfaces are prepared and
  completion is delegated to `term.Compgen`. -/
inductive CompgenResult where
  | candidates (vals : List String) (pfx : String)
  | empty
  | delegated (contName : String) (qname : String)
deriving DecidableEq, Repr

/-- `commander.Compgen`: `pos` and `pfx` are what the collaborator
`compgen.Prefix(args, inword)` computed — the index of the token being
completed and the prefix typed so far. -/
def Compgen (c : commander) (pos : Nat) (pfx : String) (args : List String) : CompgenResult :=
  if pos = 0 then
    CompgenResult.candidates (c.cmds.map Prod.fst) pfx
  else
    match getContainer c args with
    | none => CompgenResult.empty
    | some cont => CompgenResult.delegated cont.name (c.name ++ " " ++ cont.name)

/-- Events of `prepare`/`Launch` in the compgen-based variant, recording
the order of the capability-detection and parsing steps. -/
inductive Ev where
  | newFlagSet (qname : String)
  | newTerminator
  | pathSet (qname : String)
  | flagsPopulated
  | compgensPopulated
  | terminate
  | parseTokens (tokens : List String)
  | runCmd
deriving DecidableEq, Repr

/-- `prepare(cmd, name)` as an event trace: fresh flag set and terminator,
then — capability by capability — `Path` if the handler is a `Commander`,
`Flags` if a `Flagger`, `Compgens` if a `Completer`. -/
def prepareTrace (isCmdr isFlagger isCompleter : Bool) (qname : String) : List Ev :=
  [Ev.newFlagSet qname, Ev.newTerminator]
    ++ (if isCmdr then [Ev.pathSet qname] else [])
    ++ (if isFlagger then [Ev.flagsPopulated] else [])
    ++ (if isCompleter then [Ev.compgensPopulated] else [])

/-- `Launch(cmd, name, args)` as an event trace: `prepare`, then
`term.Terminate()`, then `matchingFlags.Parse(args[1:])`, then
`cmd.Run(matchingFlags.Args())`. -/
def LaunchTrace (isCmdr isFlagger isCompleter : Bool) (qname : String)
    (args : List String) : List Ev :=
  prepareTrace isCmdr isFlagger isCompleter qname
    ++ [Ev.terminate, Ev.parseTokens args.tail, Ev.runCmd]

/-- Predicate picking out the `pathSet` events of a `prepare` trace. -/
def isPathSetEv : Ev → Bool
  | Ev.pathSet _ => true
  | _ => false

/-- Predicate picking out the `parseTokens` events of a `Launch` trace. -/
def isParseTokensEv : Ev → Bool
  | Ev.parseTokens _ => true
  | _ => false

end ECmd3

namespace ECmd4

open GoFlag

/-- `cmdCont` of the recursive `Commander` variant, with the handler
modelled by the flags its `Flags` method binds and whether it has the
`Commander` (nested-dispatcher) capability. -/
structure cmdCont where
  name : String
  desc : String
  flags : List FlagDef
  isCommander : Bool
  requiredFlags : List String
deriving DecidableEq, Repr

/-- A `commander` value: its display name and its sub-command map. -/
structure commander where
  name : String
  cmds : List (String × cmdCont)
deriving DecidableEq, Repr

/-- Events of `commander.Parse`, in the order the code performs them. -/
inductive Ev where
  | topUsage
  | initFlags (name : String)
  | addHelpFlag
  | parseTokens (tokens : List String)
  | setMatching
  | setName (qname : String)
  | requiredCheck
  | subUsage (name : String)
  | recurseParse (qname : String)
  | exitProc (code : Nat)
deriving DecidableEq, Repr

/-- `commander.Parse` as an event trace over the already-parsed own flag
set: `argv` is `c.flags.Args()`.  The matched branch initialises the
subcommand's flag set, appends the automatic `h` flag, parses the
remaining tokens, records the match, then — if the handler is a
`Commander` — sets its display name, then checks the required flags, and
finally recurses into the nested `Parse`. -/
def parseTrace (c : commander) (argv : List String) : List Ev :=
  if c.cmds.length < 1 then []
  else
    match argv with
    | [] => [Ev.topUsage, Ev.exitProc 1]
    | nm :: rest =>
      match mapLookup c.cmds nm with
      | none => [Ev.topUsage, Ev.exitProc 1]
      | some cont =>
        match parseFlags (cont.flags ++ [Command.hFlagDef]) rest with
        | FParse.err =>
          [Ev.initFlags nm, Ev.addHelpFlag, Ev.parseTokens rest, Ev.exitProc 2]
        | FParse.ok visited _ =>
          [Ev.initFlags nm, Ev.addHelpFlag, Ev.parseTokens rest, Ev.setMatching]
            ++ (if cont.isCommander then [Ev.setName (c.name ++ " " ++ nm)] else [])
            ++ [Ev.requiredCheck]
            ++ (if cont.requiredFlags.all (fun r => (visited.map Prod.fst).contains r) then
                  (if cont.isCommander then [Ev.recurseParse (c.name ++ " " ++ nm)] else [])
                else [Ev.subUsage nm, Ev.exitProc 1])

/-- Predicate picking out the `setName` events of a trace. -/
def isSetNameEv : Ev → Bool
  | Ev.setName _ => true
  | _ => false

/-- Predicate picking out the `parseTokens` events of a trace. -/
def isParseEv : Ev → Bool
  | Ev.parseTokens _ => true
  | _ => false

/-- Predicate picking out the `requiredCheck` events of a trace. -/
def isRequiredCheckEv : Ev → Bool
  | Ev.requiredCheck => true
  | _ => false

end ECmd4

namespace Fixtures

/-- The `version` handler of the README example: one boolean flag `v`. -/
def versionCmd : Command.Cmd := ⟨1, [⟨"v", true⟩]⟩

/-- Registration record for `version`, no required flags. -/
def versionCont : Command.cmdCont := ⟨"version", "prints the version", versionCmd, []⟩

/-- A handler with two string flags `a` and `b`. -/
def deployCmd : Command.Cmd := ⟨2, [⟨"a", false⟩, ⟨"b", false⟩]⟩

/-- Registration record declaring `a` and `b` required. -/
def deployCont : Command.cmdCont := ⟨"deploy", "deploys the site", deployCmd, ["a", "b"]⟩

/-- A registered state holding `version` and `deploy`. -/
def demoCmds : List (String × Command.cmdCont) :=
  [("version", versionCont), ("deploy", deployCont)]

/-- A nested-dispatcher container of the recursive variant (a handler with
the `Commander` capability, no own flags, no required flags). -/
def remoteCont : ECmd4.cmdCont := ⟨"remote", "remote subcommands", [], true, []⟩

/-- A root commander of the recursive variant owning only `remote`. -/
def rootCommander : ECmd4.commander := ⟨"prog", [("remote", remoteCont)]⟩

/-- A compgen-variant commander owning `command1`, `command2`, `version`. -/
def demoCommander3 : ECmd3.commander :=
  ⟨"program",
   [("command1", ⟨"command1", "", "some description about command1", 1⟩),
    ("command2", ⟨"command2", "", "some description about command2", 2⟩),
    ("version", ⟨"version", "", "prints the version", 3⟩)]⟩

end Fixtures

theorem mapLookup_mapUpdate_self {α : Type} (m : List (String × α)) (k : String) (v : α) :
    mapLookup (mapUpdate m k v) k = some v := by
  induction m with
  | nil => simp [mapUpdate, mapLookup]
  | cons p t ih =>
    by_cases h : p.1 = k <;> simp [mapUpdate, mapLookup, h, ih]

theorem mapLookup_mapUpdate_ne {α : Type} (m : List (String × α)) (k j : String) (v : α)
    (h : j ≠ k) : mapLookup (mapUpdate m k v) j = mapLookup m j := by
  have hkj : ¬ k = j := fun hh => h hh.symm
  induction m with
  | nil => simp [mapUpdate, mapLookup, hkj]
  | cons p t ih =>
    by_cases hp : p.1 = k
    · have hpj : ¬ p.1 = j := fun hh => h (hp ▸ hh).symm
      simp [mapUpdate, mapLookup, hp, hpj, hkj]
    · by_cases hj : p.1 = j <;> simp [mapUpdate, mapLookup, hp, hj, h, ih]

theorem mem_keys_iff_mapLookup_isSome {α : Type} (m : List (String × α)) (k : String) :
    k ∈ m.map Prod.fst ↔ (mapLookup m k).isSome := by
  induction m with
  | nil => simp [mapLookup]
  | cons p t ih =>
    by_cases h : p.1 = k
    · simp [mapLookup, h]
    · have hk : ¬ k = p.1 := fun hh => h hh.symm
      simp [mapLookup, h, hk, ih]

theorem mapLookup_some_length_pos {α : Type} {m : List (String × α)} {k : String} {v : α}
    (h : mapLookup m k = some v) : 0 < m.length := by
  cases m with
  | nil => simp [mapLookup] at h
  | cons p t => simp

theorem list_all_contains_iff (l l2 : List String) :
    (l.all fun r => l2.contains r) = true ↔ ∀ r ∈ l, r ∈ l2 := by
  simp [List.all_eq_true]

theorem parseFlagsAux_ok_suffix (defs : List GoFlag.FlagDef) (args : List String)
    (acc : List (String × String)) :
    ∀ (visited : List (String × String)) (leftover : List String),
      GoFlag.parseFlagsAux defs args acc = GoFlag.FParse.ok visited leftover →
      leftover.IsSuffix args := by
  induction args, acc using GoFlag.parseFlagsAux.induct defs with
  | case1 acc =>
    intro visited leftover h
    simp only [GoFlag.parseFlagsAux] at h
    cases h
    exact List.suffix_refl []
  | case2 s rest acc hcl =>
    intro visited leftover h
    simp only [GoFlag.parseFlagsAux, hcl] at h
    cases h
    exact List.suffix_refl _
  | case3 s rest acc hcl =>
    intro visited leftover h
    simp only [GoFlag.parseFlagsAux, hcl] at h
    cases h
    exact List.suffix_cons s rest
  | case4 s rest acc hcl =>
    intro visited leftover h
    simp only [GoFlag.parseFlagsAux, hcl] at h
    exact GoFlag.FParse.noConfusion h
  | case5 s rest acc nm valOpt hcl hfind =>
    intro visited leftover h
    simp only [GoFlag.parseFlagsAux, hcl, hfind] at h
    exact GoFlag.FParse.noConfusion h
  | case6 s rest acc nm fd hfind hbool v val hbv hcl ih =>
    intro visited leftover h
    simp only [GoFlag.parseFlagsAux, hcl, hfind, hbool, hbv, if_true] at h
    exact (ih _ _ h).trans (List.suffix_cons s rest)
  | case7 s rest acc nm fd hfind hbool v hbv hcl =>
    intro visited leftover h
    simp only [GoFlag.parseFlagsAux, hcl, hfind, hbool, hbv, if_true] at h
    exact GoFlag.FParse.noConfusion h
  | case8 s rest acc nm fd hfind hbool hcl ih =>
    intro visited leftover h
    simp only [GoFlag.parseFlagsAux, hcl, hfind, hbool, if_true] at h
    exact (ih _ _ h).trans (List.suffix_cons s rest)
  | case9 s rest acc nm fd hfind hbool v hcl ih =>
    intro visited leftover h
    simp only [GoFlag.parseFlagsAux, hcl, hfind, hbool, if_false] at h
    exact (ih _ _ h).trans (List.suffix_cons s rest)
  | case10 s acc nm fd hfind hbool v rest2 hcl ih =>
    intro visited leftover h
    simp only [GoFlag.parseFlagsAux, hcl, hfind, hbool, if_false] at h
    exact ((ih _ _ h).trans (List.suffix_cons v rest2)).trans
      (List.suffix_cons s (v :: rest2))
  | case11 s acc nm fd hfind hbool hcl =>
    intro visited leftover h
    simp only [GoFlag.parseFlagsAux, hcl, hfind, hbool, if_false] at h
    exact GoFlag.FParse.noConfusion h

theorem mapLookup_of_mem_nodup {α : Type} {m : List (String × α)} {p : String × α}
    (hmem : p ∈ m) (hnd : (m.map Prod.fst).Nodup) : mapLookup m p.1 = some p.2 := by
  induction m with
  | nil => cases hmem
  | cons q t ih =>
    rcases List.mem_cons.mp hmem with rfl | hmem2
    · simp [mapLookup]
    · simp only [List.map_cons] at hnd
      have h1 : q.1 ∉ t.map Prod.fst := (List.nodup_cons.mp hnd).1
      have h2 : (t.map Prod.fst).Nodup := (List.nodup_cons.mp hnd).2
      have hq : ¬ q.1 = p.1 := by
        intro hh
        exact h1 (hh ▸ List.mem_map_of_mem Prod.fst hmem2)
      simp [mapLookup, hq, ih hmem2 h2]

theorem findFlag_append_self (flags : List GoFlag.FlagDef) (fd : GoFlag.FlagDef)
    (h : fd.name ∉ flags.map GoFlag.FlagDef.name) :
    GoFlag.findFlag (flags ++ [fd]) fd.name = some fd := by
  induction flags with
  | nil => simp [GoFlag.findFlag]
  | cons g t ih =>
    have hmem : fd.name ∉ t.map GoFlag.FlagDef.name :=
      fun hh => h (List.mem_cons.mpr (Or.inr hh))
    have hg : ¬ g.name = fd.name := by
      intro hh
      exact h (List.mem_cons.mpr (Or.inl hh.symm))
    have ih2 := ih hmem
    simp only [GoFlag.findFlag] at ih2 ⊢
    rw [List.cons_append, List.find?_cons]
    simp [hg, ih2]

theorem Parse_matched_eq
    (cmds : List (String × Command.cmdCont)) (nm : String) (rest : List String)
    (cont : Command.cmdCont) (visited : List (String × String)) (leftover : List String)
    (hlook : mapLookup cmds nm = some cont)
    (hparse : GoFlag.parseFlags (Command.matchedDefs cont) rest
      = GoFlag.FParse.ok visited leftover)
    (hall : (cont.requiredFlags.all fun r => (visited.map Prod.fst).contains r) = true) :
    Command.Parse cmds (nm :: rest)
      = Command.ParseResult.matched cont leftover (GoFlag.helpValue visited) := by
  have hlen : ¬ cmds.length < 1 := by
    have := mapLookup_some_length_pos hlook
    omega
  simp only [Command.Parse, hlook, hparse]
  rw [if_neg hlen, if_pos hall]

theorem Parse_requiredMissing_eq
    (cmds : List (String × Command.cmdCont)) (nm : String) (rest : List String)
    (cont : Command.cmdCont) (visited : List (String × String)) (leftover : List String)
    (hlook : mapLookup cmds nm = some cont)
    (hparse : GoFlag.parseFlags (Command.matchedDefs cont) rest
      = GoFlag.FParse.ok visited leftover)
    (hall : (cont.requiredFlags.all fun r => (visited.map Prod.fst).contains r) = false) :
    Command.Parse cmds (nm :: rest) = Command.ParseResult.requiredMissing cont.name := by
  have hlen : ¬ cmds.length < 1 := by
    have := mapLookup_some_length_pos hlook
    omega
  have hall' : ¬ ((cont.requiredFlags.all fun r => (visited.map Prod.fst).contains r) = true) := by
    rw [hall]
    exact Bool.false_ne_true
  simp only [Command.Parse, hlook, hparse]
  rw [if_neg hlen, if_neg hall']

/-- C1: for every registered command name `nm` and argument vector
`nm :: rest` whose option tokens parse successfully (with help not
requested and the required flags present), resolution invokes exactly the
handler registered under `nm` — no other handler — and its `Run` receives
exactly `rest` with the tokens consumed as option flags removed (the
leftover tokens, a suffix of `rest`). -/
theorem parse_run_invokes_registered_handler
    (cmds : List (String × Command.cmdCont)) (nm : String) (rest : List String)
    (cont : Command.cmdCont) (visited : List (String × String)) (leftover : List String)
    (hlook : mapLookup cmds nm = some cont)
    (hparse : GoFlag.parseFlags (Command.matchedDefs cont) rest
      = GoFlag.FParse.ok visited leftover)
    (hhelp : GoFlag.helpValue visited = false)
    (hreq : ∀ r ∈ cont.requiredFlags, r ∈ visited.map Prod.fst) :
    Command.ParseAndRun cmds (nm :: rest) = Command.Outcome.ran cont.command.id leftover
    ∧ (∀ i a, Command.ParseAndRun cmds (nm :: rest) = Command.Outcome.ran i a →
        i = cont.command.id ∧ a = leftover)
    ∧ leftover.IsSuffix rest := by
  have hall : (cont.requiredFlags.all fun r => (visited.map Prod.fst).contains r) = true :=
    (list_all_contains_iff _ _).mpr hreq
  have hP := Parse_matched_eq cmds nm rest cont visited leftover hlook hparse hall
  have hO : Command.ParseAndRun cmds (nm :: rest)
      = Command.Outcome.ran cont.command.id leftover := by
    simp [Command.ParseAndRun, hP, hhelp]
  refine ⟨hO, ?_, ?_⟩
  · intro i a hia
    rw [hO] at hia
    cases hia
    exact ⟨rfl, rfl⟩
  · exact parseFlagsAux_ok_suffix (Command.matchedDefs cont) rest [] visited leftover hparse

/-- Witness for C1 at the README example: `version -v=true history` runs
the `version` handler with leftover arguments `["history"]`. -/
theorem parse_run_invokes_registered_handler_app :
    Command.ParseAndRun Fixtures.demoCmds ["version", "-v=true", "history"]
      = Command.Outcome.ran 1 ["history"] := by
  have h := parse_run_invokes_registered_handler Fixtures.demoCmds "version"
    ["-v=true", "history"] Fixtures.versionCont [("v", "true")] ["history"]
    (by decide) (by decide) (by decide) (by decide)
  exact h.1

/-- C2 counterexample: with zero commands registered and an empty argument
vector, `Parse` returns without the usage-and-exit path, although the empty
vector trivially has no first token matching a registered name; the claim
as stated (usage printed and non-zero exit for every such vector) is
therefore false. -/
theorem unmatched_vector_usage_exit_cex :
    Command.ParseAndRun ([] : List (String × Command.cmdCont)) ([] : List String)
      = Command.Outcome.silentRet
    ∧ Command.Outcome.silentRet ≠ Command.Outcome.usageExit := by
  constructor
  · rfl
  · decide

/-- C2 (amended): provided at least one command is registered, resolving an
empty argument vector, or one whose first token matches no registered name,
invokes no handler, prints the top-level usage and exits with status 1. -/
theorem unmatched_vector_usage_exit
    (cmds : List (String × Command.cmdCont)) (argv : List String)
    (hne : cmds ≠ [])
    (hmiss : argv = [] ∨ ∃ a rest, argv = a :: rest ∧ mapLookup cmds a = none) :
    Command.Parse cmds argv = Command.ParseResult.usageExit
    ∧ Command.ParseAndRun cmds argv = Command.Outcome.usageExit
    ∧ ∀ i a, Command.ParseAndRun cmds argv ≠ Command.Outcome.ran i a := by
  have hlen : ¬ cmds.length < 1 := by
    cases cmds with
    | nil => exact absurd rfl hne
    | cons p t => simp
  have hP : Command.Parse cmds argv = Command.ParseResult.usageExit := by
    rcases hmiss with h | ⟨a, rest, ha, hl⟩
    · subst h
      simp [Command.Parse, hlen]
    · subst ha
      simp [Command.Parse, hlen, hl]
  refine ⟨hP, ?_, ?_⟩
  · simp [Command.ParseAndRun, hP]
  · intro i a
    simp [Command.ParseAndRun, hP]

/-- Witness for C2 (amended): with `version` and `deploy` registered,
`["bogus"]` and `[]` both take the top-level usage-and-exit path. -/
theorem unmatched_vector_usage_exit_app :
    Command.ParseAndRun Fixtures.demoCmds ["bogus"] = Command.Outcome.usageExit
    ∧ Command.ParseAndRun Fixtures.demoCmds [] = Command.Outcome.usageExit := by
  constructor
  · exact (unmatched_vector_usage_exit Fixtures.demoCmds ["bogus"] (by decide)
      (Or.inr ⟨"bogus", [], rfl, by decide⟩)).2.1
  · exact (unmatched_vector_usage_exit Fixtures.demoCmds [] (by decide) (Or.inl rfl)).2.1

/-- C4: registering twice under the same name silently overwrites — after
both registrations only the second record (and its handler) is reachable,
by lookup and by resolution; this holds in the global-registry variant and
in the compgen-based `commander` variant. -/
theorem on_reregistration_last_write_wins
    (cmds : List (String × Command.cmdCont)) (nm d1 d2 : String)
    (c1 c2 : Command.Cmd) (r1 r2 : List String)
    (c3 : ECmd3.commander) (sy1 de1 sy2 de2 : String) (i1 i2 : Nat) :
    mapLookup (Command.On (Command.On cmds nm d1 c1 r1) nm d2 c2 r2) nm
      = some ⟨nm, d2, c2, r2⟩
    ∧ mapLookup (ECmd3.On (ECmd3.On c3 nm sy1 de1 i1) nm sy2 de2 i2).cmds nm
      = some ⟨nm, sy2, de2, i2⟩
    ∧ (r2 = [] →
        Command.ParseAndRun (Command.On (Command.On cmds nm d1 c1 r1) nm d2 c2 r2) [nm]
          = Command.Outcome.ran c2.id []) := by
  refine ⟨mapLookup_mapUpdate_self _ _ _, mapLookup_mapUpdate_self _ _ _, ?_⟩
  intro hr2
  subst hr2
  have hlook : mapLookup (Command.On (Command.On cmds nm d1 c1 r1) nm d2 c2 []) nm
      = some ⟨nm, d2, c2, []⟩ := mapLookup_mapUpdate_self _ _ _
  have hparse : GoFlag.parseFlags (Command.matchedDefs ⟨nm, d2, c2, []⟩) []
      = GoFlag.FParse.ok [] [] := by
    simp [GoFlag.parseFlags, GoFlag.parseFlagsAux]
  have hP := Parse_matched_eq _ nm [] ⟨nm, d2, c2, []⟩ [] [] hlook hparse (by rfl)
  simp [Command.ParseAndRun, hP, GoFlag.helpValue]

/-- Witness for C4: registering handlers `1` then `2` under `x` leaves
lookup and resolution at handler `2`. -/
theorem on_reregistration_last_write_wins_app :
    mapLookup (Command.On (Command.On [] "x" "one" ⟨1, []⟩ []) "x" "two" ⟨2, []⟩ []) "x"
      = some ⟨"x", "two", ⟨2, []⟩, []⟩
    ∧ Command.ParseAndRun (Command.On (Command.On [] "x" "one" ⟨1, []⟩ []) "x" "two" ⟨2, []⟩ []) ["x"]
      = Command.Outcome.ran 2 [] := by
  have h := on_reregistration_last_write_wins [] "x" "one" "two" ⟨1, []⟩ ⟨2, []⟩ [] []
    ⟨"g", []⟩ "s1" "d1" "s2" "d2" 1 2
  exact ⟨h.1, h.2.2 rfl⟩

/-- C9: with zero commands registered, `Parse` returns immediately — no
usage, no exit — for every argument vector, including the empty one; this
holds in the global-registry variant and in the recursive `commander`
variant. -/
theorem parse_no_commands_returns (argv : List String) (nm : String) :
    Command.Parse [] argv = Command.ParseResult.ret
    ∧ Command.ParseAndRun [] argv = Command.Outcome.silentRet
    ∧ ECmd4.parseTrace ⟨nm, []⟩ argv = [] := by
  refine ⟨?_, ?_, ?_⟩
  · simp [Command.Parse]
  · simp [Command.ParseAndRun, Command.Parse]
  · simp [ECmd4.parseTrace]

/-- C10: registering under `nm` leaves the record bound to every other
name unchanged, in the global-registry variant and in the compgen-based
`commander` variant. -/
theorem on_preserves_other_entries
    (cmds : List (String × Command.cmdCont)) (nm other d : String) (c : Command.Cmd)
    (r : List String) (c3 : ECmd3.commander) (sy de : String) (i : Nat)
    (h : other ≠ nm) :
    mapLookup (Command.On cmds nm d c r) other = mapLookup cmds other
    ∧ mapLookup (ECmd3.On c3 nm sy de i).cmds other = mapLookup c3.cmds other := by
  exact ⟨mapLookup_mapUpdate_ne _ _ _ _ h, mapLookup_mapUpdate_ne _ _ _ _ h⟩

/-- Witness for C10: registering `deploy2` leaves `version` bound as
before. -/
theorem on_preserves_other_entries_app :
    mapLookup (Command.On Fixtures.demoCmds "deploy2" "d" ⟨3, []⟩ []) "version"
      = some Fixtures.versionCont
    ∧ mapLookup Fixtures.demoCmds "version" = some Fixtures.versionCont := by
  have h := on_preserves_other_entries Fixtures.demoCmds "deploy2" "version" "d" ⟨3, []⟩
    [] ⟨"g", []⟩ "s" "d" 3 (by decide)
  exact ⟨h.1.trans (by decide), by decide⟩

/-- C3: for a matched command whose option tokens parse successfully,
resolution succeeds if and only if every declared required option name
appears among the options actually supplied (a presence check over the
visited set, hence independent of supply order); when one is absent, the
outcome is the matched command's own subcommand usage plus a non-zero
exit, not the top-level usage. -/
theorem required_flags_presence_decides_resolution
    (cmds : List (String × Command.cmdCont)) (nm : String) (rest : List String)
    (cont : Command.cmdCont) (visited : List (String × String)) (leftover : List String)
    (hlook : mapLookup cmds nm = some cont)
    (hparse : GoFlag.parseFlags (Command.matchedDefs cont) rest
      = GoFlag.FParse.ok visited leftover) :
    (Command.Parse cmds (nm :: rest)
        = Command.ParseResult.matched cont leftover (GoFlag.helpValue visited)
      ↔ ∀ r ∈ cont.requiredFlags, r ∈ visited.map Prod.fst)
    ∧ (Command.Parse cmds (nm :: rest) = Command.ParseResult.requiredMissing cont.name
      ↔ ¬ ∀ r ∈ cont.requiredFlags, r ∈ visited.map Prod.fst)
    ∧ ((¬ ∀ r ∈ cont.requiredFlags, r ∈ visited.map Prod.fst) →
        Command.ParseAndRun cmds (nm :: rest)
          = Command.Outcome.requiredMissingExit cont.name) := by
  by_cases hreq : ∀ r ∈ cont.requiredFlags, r ∈ visited.map Prod.fst
  · have hall := (list_all_contains_iff _ _).mpr hreq
    have hP := Parse_matched_eq cmds nm rest cont visited leftover hlook hparse hall
    refine ⟨⟨fun _ => hreq, fun _ => hP⟩, ?_, fun hn => absurd hreq hn⟩
    rw [hP]
    constructor
    · intro hcontra
      exact Command.ParseResult.noConfusion hcontra
    · intro hn
      exact absurd hreq hn
  · have hall : (cont.requiredFlags.all fun r => (visited.map Prod.fst).contains r) = false :=
      Bool.eq_false_iff.mpr (fun ht => hreq ((list_all_contains_iff _ _).mp ht))
    have hP := Parse_requiredMissing_eq cmds nm rest cont visited leftover hlook hparse hall
    refine ⟨?_, ⟨fun _ => hreq, fun _ => hP⟩, ?_⟩
    · rw [hP]
      constructor
      · intro hcontra
        exact Command.ParseResult.noConfusion hcontra
      · intro hmem
        exact absurd hmem hreq
    · intro _
      simp [Command.ParseAndRun, hP]

/-- Witness for C3: `deploy` requires `a` and `b`; supplying both (in
either order) resolves to the match, supplying only `a` takes the
subcommand-usage-and-exit path. -/
theorem required_flags_presence_decides_resolution_app :
    Command.Parse Fixtures.demoCmds ["deploy", "-b", "2", "-a", "1"]
      = Command.ParseResult.matched Fixtures.deployCont [] false
    ∧ Command.ParseAndRun Fixtures.demoCmds ["deploy", "-a", "1"]
      = Command.Outcome.requiredMissingExit "deploy" := by
  constructor
  · have h := (required_flags_presence_decides_resolution Fixtures.demoCmds "deploy"
      ["-b", "2", "-a", "1"] Fixtures.deployCont [("b", "2"), ("a", "1")] []
      (by decide) (by decide)).1.mpr (by decide)
    exact h
  · have h := (required_flags_presence_decides_resolution Fixtures.demoCmds "deploy"
      ["-a", "1"] Fixtures.deployCont [("a", "1")] []
      (by decide) (by decide)).2.2 (by decide)
    exact h

/-- C8: a boolean `h` flag is added to every matched command's flag set
before parsing; when the parsed vector sets it (and `Parse` completes, in
particular the required flags are present), the subsequent `Run` prints the
matched command's subcommand usage and returns — the handler is not
invoked and the process does not exit.  In particular `[nm, "-h"]` parses
even for a command that declares no `h` flag of its own. -/
theorem auto_help_flag_short_circuits_run
    (cmds : List (String × Command.cmdCont)) (nm : String) (cont : Command.cmdCont)
    (hlook : mapLookup cmds nm = some cont)
    (hnoh : "h" ∉ cont.command.flags.map GoFlag.FlagDef.name) :
    (∀ rest visited leftover,
        GoFlag.parseFlags (Command.matchedDefs cont) rest = GoFlag.FParse.ok visited leftover →
        GoFlag.helpValue visited = true →
        (∀ r ∈ cont.requiredFlags, r ∈ visited.map Prod.fst) →
        Command.ParseAndRun cmds (nm :: rest) = Command.Outcome.helpShown cont.name)
    ∧ (cont.requiredFlags = [] →
        Command.Parse cmds [nm, "-h"] = Command.ParseResult.matched cont [] true
        ∧ Command.ParseAndRun cmds [nm, "-h"] = Command.Outcome.helpShown cont.name) := by
  constructor
  · intro rest visited leftover hparse hhelp hreq
    have hall := (list_all_contains_iff _ _).mpr hreq
    have hP := Parse_matched_eq cmds nm rest cont visited leftover hlook hparse hall
    simp [Command.ParseAndRun, hP, hhelp]
  · intro hr
    have hfind : GoFlag.findFlag (cont.command.flags ++ [Command.hFlagDef]) "h"
        = some Command.hFlagDef :=
      findFlag_append_self cont.command.flags Command.hFlagDef hnoh
    have hcl : GoFlag.classifyTok "-h" = GoFlag.TokClass.flagTok "h" none := by decide
    have hparse : GoFlag.parseFlags (Command.matchedDefs cont) ["-h"]
        = GoFlag.FParse.ok [("h", "true")] [] := by
      simp only [Command.hFlagDef] at hfind
      simp only [GoFlag.parseFlags, Command.matchedDefs, GoFlag.parseFlagsAux, hcl,
        Command.hFlagDef]
      rw [hfind]
      rfl
    have hall : (cont.requiredFlags.all
        fun r => ((([("h", "true")] : List (String × String))).map Prod.fst).contains r)
        = true := by
      rw [hr]
      rfl
    have hP := Parse_matched_eq cmds nm ["-h"] cont [("h", "true")] [] hlook hparse hall
    have hhelp : GoFlag.helpValue [("h", "true")] = true := by rfl
    rw [hhelp] at hP
    refine ⟨hP, ?_⟩
    simp [Command.ParseAndRun, hP]

/-- Witness for C8: `version -h` (the `version` handler declares only `v`)
matches with help set, and `Run` shows the subcommand usage without
running the handler. -/
theorem auto_help_flag_short_circuits_run_app :
    Command.Parse Fixtures.demoCmds ["version", "-h"]
      = Command.ParseResult.matched Fixtures.versionCont [] true
    ∧ Command.ParseAndRun Fixtures.demoCmds ["version", "-h"]
      = Command.Outcome.helpShown "version" := by
  have h := (auto_help_flag_short_circuits_run Fixtures.demoCmds "version"
    Fixtures.versionCont (by decide) (by decide)).2 rfl
  exact ⟨h.1, h.2⟩

/-- C5 counterexample: in the recursive `Commander` variant's `Parse`, for
the concrete root commander owning the nested dispatcher `remote`,
resolving `["remote"]` performs `matchingFlags.Parse` (index 2 of the
trace) before `SetName` (index 4): the display name is not set before the
flag surface parses the remaining tokens. -/
theorem nested_name_set_order_cex :
    ECmd4.parseTrace Fixtures.rootCommander ["remote"]
      = [ECmd4.Ev.initFlags "remote", ECmd4.Ev.addHelpFlag, ECmd4.Ev.parseTokens [],
         ECmd4.Ev.setMatching, ECmd4.Ev.setName "prog remote", ECmd4.Ev.requiredCheck,
         ECmd4.Ev.recurseParse "prog remote"]
    ∧ ¬ ((ECmd4.parseTrace Fixtures.rootCommander ["remote"]).findIdx ECmd4.isSetNameEv
        < (ECmd4.parseTrace Fixtures.rootCommander ["remote"]).findIdx ECmd4.isParseEv) := by
  constructor
  · decide
  · decide

/-- C5 (amended): for every matched handler with the nested-dispatcher
capability, the recursive `Commander.Parse` sets the display name to
`currentDisplayName + " " + name` *after* the flag surface has parsed the
remaining tokens but *before* the required-flag check (so the nested usage
text is correct when that check fails), while the `prepare`-based launch
path of the compgen variant sets it before the flag surface is populated
and parsed. -/
theorem nested_name_set_order
    (c : ECmd4.commander) (nm : String) (rest : List String) (cont : ECmd4.cmdCont)
    (visited : List (String × String)) (leftover : List String)
    (f cg : Bool) (qn : String) (args2 : List String)
    (hlook : mapLookup c.cmds nm = some cont)
    (hnested : cont.isCommander = true)
    (hparse : GoFlag.parseFlags (cont.flags ++ [Command.hFlagDef]) rest
      = GoFlag.FParse.ok visited leftover) :
    ((ECmd4.parseTrace c (nm :: rest)).findIdx ECmd4.isParseEv
        < (ECmd4.parseTrace c (nm :: rest)).findIdx ECmd4.isSetNameEv
      ∧ (ECmd4.parseTrace c (nm :: rest)).findIdx ECmd4.isSetNameEv
        < (ECmd4.parseTrace c (nm :: rest)).findIdx ECmd4.isRequiredCheckEv)
    ∧ (ECmd3.LaunchTrace true f cg qn args2).findIdx ECmd3.isPathSetEv
        < (ECmd3.LaunchTrace true f cg qn args2).findIdx ECmd3.isParseTokensEv := by
  have hlen : ¬ c.cmds.length < 1 := by
    have := mapLookup_some_length_pos hlook
    omega
  have htr : ECmd4.parseTrace c (nm :: rest)
      = [ECmd4.Ev.initFlags nm, ECmd4.Ev.addHelpFlag, ECmd4.Ev.parseTokens rest,
         ECmd4.Ev.setMatching, ECmd4.Ev.setName (c.name ++ " " ++ nm), ECmd4.Ev.requiredCheck]
        ++ (if cont.requiredFlags.all (fun r => (visited.map Prod.fst).contains r) then
              [ECmd4.Ev.recurseParse (c.name ++ " " ++ nm)]
            else [ECmd4.Ev.subUsage nm, ECmd4.Ev.exitProc 1]) := by
    simp only [ECmd4.parseTrace, hlook, hparse]
    rw [if_neg hlen]
    simp [hnested]
  constructor
  · rw [htr]
    constructor <;>
      simp [List.findIdx_cons, ECmd4.isParseEv, ECmd4.isSetNameEv, ECmd4.isRequiredCheckEv]
  · cases f <;> cases cg <;>
      simp [ECmd3.LaunchTrace, ECmd3.prepareTrace, List.findIdx_cons,
        ECmd3.isPathSetEv, ECmd3.isParseTokensEv]

/-- Witness for C5 (amended): the concrete `remote` resolution has its
parse event before its set-name event, and a concrete `Launch` of a nested
dispatcher has its path-set event before its parse event. -/
theorem nested_name_set_order_app :
    (ECmd4.parseTrace Fixtures.rootCommander ["remote"]).findIdx ECmd4.isParseEv
      < (ECmd4.parseTrace Fixtures.rootCommander ["remote"]).findIdx ECmd4.isSetNameEv
    ∧ (ECmd3.LaunchTrace true true false "prog remote" ["add", "x"]).findIdx ECmd3.isPathSetEv
      < (ECmd3.LaunchTrace true true false "prog remote" ["add", "x"]).findIdx
          ECmd3.isParseTokensEv := by
  have h := nested_name_set_order Fixtures.rootCommander "remote" [] Fixtures.remoteCont
    [] [] true false "prog remote" ["add", "x"] (by decide) (by decide) (by decide)
  exact ⟨h.1.1, h.2⟩

/-- C6: completion at token position 0 hands every registered command name
(exactly the keys of the mapping) to the prefix-filtering value generator;
at a position greater than 0 whose first token matches no registered name
it produces the empty candidate set and no error. -/
theorem compgen_position_cases
    (c : ECmd3.commander) (pfx : String) (args : List String) :
    (ECmd3.Compgen c 0 pfx args
        = ECmd3.CompgenResult.candidates (c.cmds.map Prod.fst) pfx
      ∧ ∀ n, n ∈ c.cmds.map Prod.fst ↔ (mapLookup c.cmds n).isSome)
    ∧ (∀ pos a rest, 0 < pos → args = a :: rest → mapLookup c.cmds a = none →
        ECmd3.Compgen c pos pfx args = ECmd3.CompgenResult.empty) := by
  refine ⟨⟨?_, fun n => mem_keys_iff_mapLookup_isSome _ _⟩, ?_⟩
  · simp [ECmd3.Compgen]
  · intro pos a rest hpos ha hl
    subst ha
    have hne : ¬ pos = 0 := by omega
    simp [ECmd3.Compgen, hne, ECmd3.getContainer, hl]

/-- Witness for C6: over `{command1, command2, version}`, position 0 emits
exactly the three registered names (to be prefix-filtered by the
generator), and position 1 with unmatched first token `bogus` yields the
empty candidate set. -/
theorem compgen_position_cases_app :
    ECmd3.Compgen Fixtures.demoCommander3 0 "com" []
      = ECmd3.CompgenResult.candidates ["command1", "command2", "version"] "com"
    ∧ ("command1" ∈ Fixtures.demoCommander3.cmds.map Prod.fst
        ↔ (mapLookup Fixtures.demoCommander3.cmds "command1").isSome)
    ∧ ECmd3.Compgen Fixtures.demoCommander3 1 "" ["bogus", ""]
      = ECmd3.CompgenResult.empty := by
  have h := compgen_position_cases Fixtures.demoCommander3 "com" []
  have h2 := compgen_position_cases Fixtures.demoCommander3 "" ["bogus", ""]
  refine ⟨?_, h.1.2 "command1", h2.2 1 "bogus" [""] (by decide) rfl (by decide)⟩
  have h3 := h.1.1
  simpa [Fixtures.demoCommander3] using h3

/-- C7 counterexample: with zero commands registered, `Usage` takes the
no-subcommands branch — the program header plus the flag defaults — and
the `-h`-hint line appears nowhere in the rendering, so "for every
Commander state ... ends with the hint" is false at the empty registry. -/
theorem usage_sorted_complete_hinted_cex :
    Command.Usage "program" [] 0 ["defaults"] = ["Usage of program:", "defaults"]
    ∧ "program <command> -h for subcommand help" ∉ Command.Usage "program" [] 0 ["defaults"] := by
  constructor
  · rfl
  · decide

/-- C7 (amended): for every Commander state with at least one registered
command, usage rendering is a pure function of the registered state; it
lists exactly the registered command records — one line per record, with
its description — with the keys in lexicographically sorted order (a
sorted permutation of the registered keys), and the final line is the
hint to pass `-h` to a subcommand.  (With zero registered commands the
rendering is the plain header plus flag defaults, without the hint.) -/
theorem usage_sorted_complete_hinted
    (prog : String) (cmds : List (String × Command.cmdCont)) (nG : Nat)
    (dl : List String) (hne : cmds ≠ []) (hnd : (cmds.map Prod.fst).Nodup) :
    (∃ ks : List String,
        ks.Perm (cmds.map Prod.fst)
        ∧ List.Sorted (fun a b : String => a ≤ b) ks
        ∧ Command.printUsageSorted cmds
            = ks.map (fun key =>
                Command.usageLine key (((mapLookup cmds key).map Command.cmdCont.desc).getD "")))
    ∧ (∀ p ∈ cmds, Command.usageLine p.1 p.2.desc ∈ Command.printUsageSorted cmds)
    ∧ (∃ front : List String, Command.Usage prog cmds nG dl
        = front ++ [prog ++ " <command> -h for subcommand help"]) := by
  refine ⟨⟨List.insertionSort (fun a b : String => a ≤ b) (cmds.map Prod.fst),
      List.perm_insertionSort _ _, List.sorted_insertionSort _ _, rfl⟩, ?_, ?_⟩
  · intro p hp
    have hkey : p.1 ∈ List.insertionSort (fun a b : String => a ≤ b) (cmds.map Prod.fst) :=
      (List.perm_insertionSort _ _).mem_iff.mpr (List.mem_map_of_mem Prod.fst hp)
    have hlk : mapLookup cmds p.1 = some p.2 := mapLookup_of_mem_nodup hp hnd
    have h3 := List.mem_map_of_mem
      (fun key => Command.usageLine key (((mapLookup cmds key).map Command.cmdCont.desc).getD ""))
      hkey
    have h4 : Command.usageLine p.1 (((mapLookup cmds p.1).map Command.cmdCont.desc).getD "")
        ∈ Command.printUsageSorted cmds := h3
    rw [hlk] at h4
    simpa using h4
  · have hlen : ¬ cmds.length = 0 := by
      cases cmds with
      | nil => exact absurd rfl hne
      | cons p t => simp
    refine ⟨("Usage: " ++ prog ++ " <command>") :: "" :: "where <command> is one of:"
        :: (Command.printUsageSorted cmds
            ++ (if nG > 0 then "" :: "available flags:" :: dl else []) ++ [""]), ?_⟩
    simp [Command.Usage, hlen]

/-- Witness for C7: the rendered usage of the demo registry contains the
`version` line with its description and ends with the `-h` hint line. -/
theorem usage_sorted_complete_hinted_app :
    Command.usageLine "version" "prints the version" ∈ Command.printUsageSorted Fixtures.demoCmds
    ∧ ∃ front : List String,
        Command.Usage "program" Fixtures.demoCmds 1 ["fl"]
          = front ++ ["program <command> -h for subcommand help"] := by
  have h := usage_sorted_complete_hinted "program" Fixtures.demoCmds 1 ["fl"]
    (by decide) (by decide)
  exact ⟨h.2.1 ("version", Fixtures.versionCont) (by decide), h.2.2⟩
